import Mathlib

/-!
Verification development for the dating-analysis pipeline.

Shallow embedding of the source files `data_processing.py`,
`behavior_analyzer.py`, `recommendation_system.py` and `main.py`:
pure numeric computations are translated over `ℚ` (Python floats are
modelled exactly as rationals on the inputs the theorems use), string
labels stay `String`, pandas/dict lookups that can raise `KeyError`
become `Option`-valued functions, and the blanket `try/except` blocks
become `Option.getD`-style recovery, mirroring the control flow of the
source.
-/

namespace DatingAnalysis

/-- Engagement bins produced by `pd.cut` in
`DataProcessor._calculate_engagement_levels` (ordered categorical with
categories low < medium < high). -/
inductive Engagement
  | low
  | medium
  | high
  deriving DecidableEq, Repr

/-- Label strings attached to the bins by `pd.cut(..., labels=['low','medium','high'])`. -/
def Engagement.label : Engagement → String
  | .low => "low"
  | .medium => "medium"
  | .high => "high"

/-- Ordinal position of a bin inside the ordered categorical
(low = 0, medium = 1, high = 2); this is the order `pd.cut` assigns. -/
def Engagement.rank : Engagement → ℕ
  | .low => 0
  | .medium => 1
  | .high => 2

/-- Preferences dict built by `RedditDatingAnalysis.get_user_preferences`. -/
structure Preferences where
  communication_style : String
  response_time : ℚ
  engagement_level : String
  deriving DecidableEq, Repr

/-- One row of the behaviour DataFrame built by
`BehaviorAnalyzer.analyze_user_behavior` (the per-author
UserBehaviorProfile). -/
structure UserRow where
  avg_response_time : ℚ
  message_frequency : ℚ
  avg_message_length : ℚ
  sentiment_mean : ℚ
  engagement_level : String
  active_hours : ℚ
  weekend_activity : ℚ
  deriving DecidableEq, Repr

/-- Communication-style label used during per-record profile
classification: the lambda inside
`DataProcessor._extract_communication_features`
(`'positive' if x > 0.2 else ('critical' if x < -0.2 else 'neutral')`). -/
def communication_style_of_polarity (x : ℚ) : String :=
  if x > 1/5 then "positive" else if x < -(1/5) then "critical" else "neutral"

/-- Style label used by the match scorer:
`BehaviorAnalyzer._get_communication_style` (note the capitalised
return values in the source). -/
def get_communication_style (profile : UserRow) : String :=
  if profile.sentiment_mean > 1/5 then "Positive"
  else if profile.sentiment_mean < -(1/5) then "Critical"
  else "Neutral"

/-- Python dict lookup `{'low': 0, 'medium': 1, 'high': 2}[s]` used in the
engagement component of `calculate_match_score`; `none` models `KeyError`. -/
def engagement_rank_lookup (s : String) : Option ℚ :=
  if s = "low" then some 0
  else if s = "medium" then some 1
  else if s = "high" then some 2
  else none

/-- Python dict lookup `{'low': 1, 'medium': 3, 'high': 5}[s]` used in the
activity component of `calculate_match_score`; `none` models `KeyError`. -/
def expected_frequency_lookup (s : String) : Option ℚ :=
  if s = "low" then some 1
  else if s = "medium" then some 3
  else if s = "high" then some 5
  else none

/-- Body of the `try:` block of
`RedditDatingAnalysis.calculate_match_score`; `none` models an exception
escaping the block (only the dict lookups can raise on well-typed rows).
Weights: communication 35, response time 25, engagement 25, activity 15. -/
def calculate_match_score_attempt (preferences : Preferences)
    (user_data : UserRow) : Option ℚ := do
  let user_style := get_communication_style user_data
  let comm : ℚ :=
    if user_style = preferences.communication_style then 35
    else if (user_style = "neutral" ∧ preferences.communication_style ≠ "critical") ∨
        (preferences.communication_style = "neutral" ∧ user_style ≠ "critical") then
      35 * (1/2)
    else 0
  let response_time_diff := |user_data.avg_response_time - preferences.response_time|
  let time_score : ℚ :=
    if response_time_diff ≤ 1 then 1
    else if response_time_diff ≤ 3 then 8/10
    else if response_time_diff ≤ 6 then 6/10
    else if response_time_diff ≤ 12 then 4/10
    else max 0 (1 - response_time_diff / 24)
  let eng : ℚ ←
    if user_data.engagement_level = preferences.engagement_level then pure 25
    else do
      let a ← engagement_rank_lookup user_data.engagement_level
      let b ← engagement_rank_lookup preferences.engagement_level
      pure (if |a - b| = 1 then 25 * (1/2) else 0)
  let expected ← expected_frequency_lookup preferences.engagement_level
  let activity_diff := |user_data.message_frequency - expected|
  let activity_score := max 0 (1 - activity_diff / 5)
  let base := comm + 25 * time_score + eng + 15 * activity_score
  let pen1 := if user_data.avg_response_time > 24 ∧ preferences.response_time < 6 then
      base * (8/10)
    else base
  let pen2 := if user_data.sentiment_mean < -(1/2) ∧ preferences.communication_style = "positive" then
      pen1 * (9/10)
    else pen1
  pure (min 100 (max 0 pen2))

/-- Full `calculate_match_score`: the `except` clause returns 0. -/
def calculate_match_score (preferences : Preferences) (user_data : UserRow) : ℚ :=
  (calculate_match_score_attempt preferences user_data).getD 0

/-- Profile of the spec example behind C1: avg_response_time = 1,
engagement_level = high, sentiment_mean = 0.3, message_frequency = 5
(the remaining fields do not enter the score). -/
def c1_user : UserRow :=
  ⟨1, 5, 0, 3/10, "high", 0, 0⟩

/-- Preferences of the spec example behind C1. -/
def c1_prefs : Preferences :=
  ⟨"positive", 1, "high"⟩

/-- C1: the spec example claims a final score of 100 for this
profile/preference pair, but the code computes 65: the profile style is
the capitalised string "Positive"
(`BehaviorAnalyzer._get_communication_style`) while the preference is
the lowercase "positive", so the 35-point communication component is
never awarded; the other components contribute 25 + 25 + 15. -/
theorem c1_score_at_spec_example :
    calculate_match_score c1_prefs c1_user = 65 := by
  have hPp : ¬ (("Positive" : String) = "positive") := by decide
  have hPn : ¬ (("Positive" : String) = "neutral") := by decide
  have hpn : ¬ (("positive" : String) = "neutral") := by decide
  have hPc : ¬ (("Positive" : String) = "critical") := by decide
  have hhl : ¬ (("high" : String) = "low") := by decide
  have hhm : ¬ (("high" : String) = "medium") := by decide
  norm_num [calculate_match_score, calculate_match_score_attempt, c1_user, c1_prefs,
    get_communication_style, engagement_rank_lookup, expected_frequency_lookup,
    hPp, hPn, hpn, hPc, hhl, hhm, Option.bind, sub_self, abs_zero]

/-- Profile row with sentiment_mean = 0.3 (only that field is read by
`BehaviorAnalyzer._get_communication_style`). -/
def c2_user : UserRow :=
  ⟨0, 0, 0, 3/10, "medium", 0, 0⟩

/-- C2: the two style functions are not extensionally equal: at polarity
0.3 the data_processing lambda yields "positive" while the scorer's
`_get_communication_style` yields "Positive". -/
theorem c2_style_functions_disagree :
    communication_style_of_polarity (3/10) = "positive" ∧
    get_communication_style c2_user = "Positive" ∧
    get_communication_style c2_user ≠ communication_style_of_polarity (3/10) := by
  norm_num [communication_style_of_polarity, get_communication_style, c2_user]
  decide

/-- Profile view returned by `BehaviorAnalyzer.get_user_profile`
(the nested dicts `messaging_patterns`, `engagement_profile`,
`activity_pattern` flattened into one record, field order preserved). -/
structure ProfileView where
  response_time : String
  message_frequency : ℤ
  engagement_level : String
  communication_style : String
  active_hours : ℤ
  weekend_activity : String
  deriving DecidableEq, Repr

/-- Truncation toward zero, Python `int(...)` applied to a numeric cell. -/
def truncInt (q : ℚ) : ℤ :=
  q.num / (q.den : ℤ)

/-- Rounding to an integer with ties to even, the rounding performed by
Python fixed-point formatting (applied to value*10 for one decimal). -/
def roundHalfEven (q : ℚ) : ℤ :=
  let f := ⌊q⌋
  let r := q - f
  if r < 1/2 then f
  else if 1/2 < r then f + 1
  else if f % 2 = 0 then f
  else f + 1

/-- Python `f-string` format `:.1f`: the value printed with exactly one
decimal digit. -/
def formatFixed1 (q : ℚ) : String :=
  let n := roundHalfEven (q * 10)
  let s := if n < 0 then "-" else ""
  let a := n.natAbs
  s ++ toString (a / 10) ++ "." ++ toString (a % 10)

/-- Embedding of `BehaviorAnalyzer.get_user_profile`: the behaviour
DataFrame is an association list keyed by author id; an author id absent
from the index takes the default branch of the source verbatim
(`'0 hours'`, 0, `'medium'`, `'neutral'`, 0, `'0%'`). -/
def get_user_profile (user : String) (behavior_data : List (String × UserRow)) :
    ProfileView :=
  match behavior_data.lookup user with
  | none => ⟨"0 hours", 0, "medium", "neutral", 0, "0%"⟩
  | some profile =>
    ⟨formatFixed1 profile.avg_response_time ++ " hours",
     truncInt profile.message_frequency,
     profile.engagement_level,
     get_communication_style profile,
     truncInt profile.active_hours,
     formatFixed1 (profile.weekend_activity * 100) ++ "%"⟩

/-- C3 counterexample: for an unknown author the code returns
response_time `"0 hours"` and weekend_activity `"0%"`, not the
one-decimal strings `"0.0 hours"` / `"0.0%"` the claim states. -/
theorem c3_counterexample :
    ¬ ((get_user_profile "unknown_author" []).response_time = "0.0 hours" ∧
       (get_user_profile "unknown_author" []).weekend_activity = "0.0%") := by
  decide

/-- C3 amended: for every author id not present in the profile table,
`get_user_profile` returns, without failing, the documented default
profile with engagement_level `medium`, communication_style `neutral`,
response_time `"0 hours"` (no decimal) and weekend_activity `"0%"`
(no decimal). -/
theorem c3_amended (user : String) (behavior_data : List (String × UserRow))
    (h : behavior_data.lookup user = none) :
    get_user_profile user behavior_data =
      ⟨"0 hours", 0, "medium", "neutral", 0, "0%"⟩ := by
  unfold get_user_profile
  rw [h]

/-- C3 witness: the amended default contract evaluated at a concrete
unknown author over an empty profile table. -/
theorem c3_witness :
    ([] : List (String × UserRow)).lookup "someone_new" = none ∧
    get_user_profile "someone_new" [] = ⟨"0 hours", 0, "medium", "neutral", 0, "0%"⟩ :=
  ⟨rfl, c3_amended "someone_new" [] rfl⟩

/-- Engagement-score expression of
`DataProcessor._calculate_engagement_levels` (pandas column arithmetic;
`Option` models a missing cell and `getD` the code's `fillna` defaults:
total_comments and sentiment fill with 0, avg_response_time with 24). -/
def engagement_score_code
    (total_comments avg_response_time comment_sentiment_mean : Option ℚ) : ℚ :=
  ((total_comments.getD 0) / 10 + 1 / (1 + avg_response_time.getD 24) +
    ((comment_sentiment_mean.getD 0) + 1) / 2) / 3

/-- Binning performed by
`pd.cut(scores, bins=[-inf, 0.3, 0.7, inf], labels=['low','medium','high'])`:
right-closed intervals, so low on (-inf, 0.3], medium on (0.3, 0.7],
high on (0.7, inf). -/
def engagement_bin (score : ℚ) : Engagement :=
  if score ≤ 3/10 then .low
  else if score ≤ 7/10 then .medium
  else .high

/-- Per-record engagement level assigned by
`DataProcessor._calculate_engagement_levels`. -/
def calculate_engagement_level
    (total_comments avg_response_time comment_sentiment_mean : Option ℚ) : Engagement :=
  engagement_bin (engagement_score_code total_comments avg_response_time comment_sentiment_mean)

/-- Modelled from the spec wording (section 4.5), for the refinement
claim C5: the score formula on already-defaulted inputs. -/
def spec_engagement_score
    (total_comments avg_response_time comment_sentiment_mean : ℚ) : ℚ :=
  ((total_comments / 10) + (1 / (1 + avg_response_time)) +
    ((comment_sentiment_mean + 1) / 2)) / 3

/-- Modelled from the spec wording, for the refinement claim C5:
score ≤ 0.3 low, 0.3 < score ≤ 0.7 medium, score > 0.7 high. -/
def spec_engagement_bin (s : ℚ) : Engagement :=
  if s ≤ 3/10 then .low
  else if 3/10 < s ∧ s ≤ 7/10 then .medium
  else .high

/-- Helper: the code's right-closed `pd.cut` binning agrees with the
spec's three-case description at every score. -/
theorem engagement_bin_eq_spec (s : ℚ) : engagement_bin s = spec_engagement_bin s := by
  by_cases h1 : s ≤ 3/10
  · simp [engagement_bin, spec_engagement_bin, h1]
  · by_cases h2 : s ≤ 7/10
    · simp [engagement_bin, spec_engagement_bin, h1, h2, not_le.mp h1]
    · simp [engagement_bin, spec_engagement_bin, h1, h2]

/-- C5: on inputs already defaulted per section 4.4 (no missing values),
the per-record engagement score computed by the code equals the spec's
formula, and the assigned bin is low when score ≤ 0.3, medium when
0.3 < score ≤ 0.7 and high when score > 0.7. -/
theorem c5_engagement_score_and_binning
    (total_comments avg_response_time comment_sentiment_mean : ℚ) :
    engagement_score_code (some total_comments) (some avg_response_time)
        (some comment_sentiment_mean) =
      spec_engagement_score total_comments avg_response_time comment_sentiment_mean ∧
    calculate_engagement_level (some total_comments) (some avg_response_time)
        (some comment_sentiment_mean) =
      spec_engagement_bin
        (spec_engagement_score total_comments avg_response_time comment_sentiment_mean) := by
  refine ⟨rfl, ?_⟩
  unfold calculate_engagement_level
  rw [show engagement_score_code (some total_comments) (some avg_response_time)
      (some comment_sentiment_mean) =
      spec_engagement_score total_comments avg_response_time comment_sentiment_mean from rfl]
  exact engagement_bin_eq_spec _

/-- One processed comment as produced by `DataProcessor._process_comments`:
cleaned text, score, timestamp, word count and sentiment polarity. The
timestamp is kept in seconds (Python converts deltas with
`total_seconds() / 3600`). -/
structure PComment where
  author : String
  text : String
  score : ℤ
  created_utc : ℚ
  word_count : ℕ
  sentiment : ℚ
  deriving DecidableEq, Repr

/-- Mean of a list of rationals (`np.mean`; callers guard nonemptiness). -/
def listMean (l : List ℚ) : ℚ :=
  l.sum / (l.length : ℚ)

/-- Differences between consecutive elements of a list
(`times[i] - times[i-1]` for i = 1 .. len-1). -/
def consecutiveDeltas : List ℚ → List ℚ
  | a :: b :: rest => (b - a) :: consecutiveDeltas (b :: rest)
  | _ => []

/-- Embedding of `DataProcessor._calculate_response_times`: sort the
comment timestamps ascending, take consecutive deltas, convert seconds
to hours. -/
def calculate_response_times (comments : List PComment) : List ℚ :=
  let times := (comments.map (fun c => c.created_utc)).insertionSort (· ≤ ·)
  (consecutiveDeltas times).map (fun d => d / 3600)

/-- Output record of `DataProcessor._extract_comment_features` /
`_get_default_comment_features`. -/
structure CommentFeatures where
  avg_comment_length : ℚ
  total_comments : ℚ
  avg_words_per_comment : ℚ
  comment_sentiment_mean : ℚ
  avg_response_time : ℚ
  deriving DecidableEq, Repr

/-- Embedding of `DataProcessor._extract_comment_features`: the empty
comment list takes the all-zero default branch; otherwise the five
per-post statistics are computed, with avg_response_time falling back to
0 when the delta list is empty. -/
def extract_comment_features (comments : List PComment) : CommentFeatures :=
  match comments with
  | [] => ⟨0, 0, 0, 0, 0⟩
  | _ =>
    let response_times := calculate_response_times comments
    ⟨listMean (comments.map (fun c => (c.text.length : ℚ))),
     (comments.length : ℚ),
     listMean (comments.map (fun c => (c.word_count : ℚ))),
     listMean (comments.map (fun c => c.sentiment)),
     if response_times = [] then 0 else listMean response_times⟩

/-- Modelled from the spec wording (section 4.4), for claim C8: sort the
timestamps ascending, average the consecutive deltas in hours, and yield
0 when there are fewer than 2 comments. -/
def spec_avg_response_time (comments : List PComment) : ℚ :=
  if comments.length < 2 then 0
  else
    listMean ((consecutiveDeltas
      ((comments.map (fun c => c.created_utc)).insertionSort (· ≤ ·))).map
        (fun d => d / 3600))

/-- Helper: consecutive deltas shorten a list by one. -/
theorem consecutiveDeltas_length (l : List ℚ) :
    (consecutiveDeltas l).length = l.length - 1 := by
  match l with
  | [] => rfl
  | [a] => rfl
  | a :: b :: rest =>
    simp only [consecutiveDeltas, List.length_cons]
    rw [consecutiveDeltas_length (b :: rest)]
    simp

/-- Three comments at t = 0h, 2h and 5h (timestamps in seconds). -/
def c8_comments : List PComment :=
  [⟨"u1", "", 0, 0, 0, 0⟩, ⟨"u2", "", 0, 7200, 0, 0⟩, ⟨"u3", "", 0, 18000, 0, 0⟩]

/-- C8: the per-post reduction returns the all-zero record on an empty
comment list; on every comment list its avg_response_time is the mean of
the hour deltas between consecutive ascending-sorted timestamps (0 when
fewer than 2 comments); and comments at t = 0h, 2h, 5h yield
avg_response_time 2.5. -/
theorem c8_comment_aggregation :
    extract_comment_features [] = ⟨0, 0, 0, 0, 0⟩ ∧
    (∀ comments : List PComment,
      (extract_comment_features comments).avg_response_time =
        spec_avg_response_time comments) ∧
    (extract_comment_features c8_comments).avg_response_time = 5/2 := by
  have hmain : ∀ comments : List PComment,
      (extract_comment_features comments).avg_response_time =
        spec_avg_response_time comments := by
    intro comments
    match comments with
    | [] => rfl
    | [c] =>
      simp [extract_comment_features, spec_avg_response_time, calculate_response_times,
        List.insertionSort, consecutiveDeltas]
    | c1 :: c2 :: cs =>
      have hlen : (((c1 :: c2 :: cs).map (fun c => c.created_utc)).insertionSort
          (· ≤ ·)).length = cs.length + 2 := by
        rw [(List.perm_insertionSort _ _).length_eq]
        simp
      have hne : calculate_response_times (c1 :: c2 :: cs) ≠ [] := by
        unfold calculate_response_times
        intro hempty
        have := congrArg List.length hempty
        simp only [List.length_map, consecutiveDeltas_length, hlen, List.length_nil] at this
        omega
      simp only [extract_comment_features, spec_avg_response_time]
      rw [if_neg hne]
      have : ¬ ((c1 :: c2 :: cs).length < 2) := by simp
      rw [if_neg this]
      rfl
  refine ⟨rfl, hmain, ?_⟩
  rw [hmain c8_comments]
  norm_num [spec_avg_response_time, c8_comments, List.insertionSort, List.orderedInsert,
    consecutiveDeltas, listMean]

/-- One row of the processed-post DataFrame, restricted to the columns
`BehaviorAnalyzer.analyze_user_behavior` reads; `Option` models a NaN
cell (the code applies `fillna(0)` before averaging). The
engagement_level cell holds the ordered categorical produced by
`pd.cut`. -/
structure PostRow where
  author : String
  avg_response_time : Option ℚ
  avg_words_per_comment : Option ℚ
  comment_sentiment_mean : Option ℚ
  engagement_level : Engagement
  hour_posted : ℕ
  is_weekend : Bool
  deriving DecidableEq, Repr

/-- Rows of one author in original order, `df[df['author'] == user]`. -/
def user_posts (user : String) (df : List PostRow) : List PostRow :=
  df.filter (fun p => p.author == user)

/-- Embedding of `user_posts['engagement_level'].mode().iloc[0]`: pandas
`mode()` returns the bins of maximal frequency sorted ascending, which
for the ordered categorical built by `pd.cut` is the category order
low < medium < high, and `.iloc[0]` takes the first, i.e. the smallest
such bin. -/
def engagement_mode (l : List Engagement) : Engagement :=
  let cl := l.count Engagement.low
  let cm := l.count Engagement.medium
  let ch := l.count Engagement.high
  if cm ≤ cl ∧ ch ≤ cl then Engagement.low
  else if ch ≤ cm then Engagement.medium
  else Engagement.high

/-- Embedding of the per-user dict built by
`BehaviorAnalyzer.analyze_user_behavior` (one row of the behaviour
DataFrame; fields in source order). -/
def analyze_user_row (user : String) (df : List PostRow) : UserRow :=
  let posts := user_posts user df
  ⟨listMean (posts.map (fun p => p.avg_response_time.getD 0)),
   (posts.length : ℚ),
   listMean (posts.map (fun p => p.avg_words_per_comment.getD 0)),
   listMean (posts.map (fun p => p.comment_sentiment_mean.getD 0)),
   (if posts.isEmpty then Engagement.medium
    else engagement_mode (posts.map (fun p => p.engagement_level))).label,
   (((posts.map (fun p => p.hour_posted)).dedup.length : ℚ)),
   listMean (posts.map (fun p => if p.is_weekend then 1 else 0))⟩

/-- Modelled from the spec wording (sections 4.7 and 9), for claim C4:
the most frequent engagement bin among the author's posts, ties broken
in favor of the bin first encountered in post order. -/
def spec_mode_first_encountered (l : List Engagement) : Engagement :=
  match l.find? (fun b =>
      decide (l.count Engagement.low ≤ l.count b) &&
      decide (l.count Engagement.medium ≤ l.count b) &&
      decide (l.count Engagement.high ≤ l.count b)) with
  | some b => b
  | none => Engagement.medium

/-- Two posts of one author whose engagement bins are, in post order,
high then low (a frequency tie). -/
def c4_df : List PostRow :=
  [⟨"alice", some 1, some 1, some 0, Engagement.high, 10, false⟩,
   ⟨"alice", some 1, some 1, some 0, Engagement.low, 11, false⟩]

/-- C4 counterexample: with bins [high, low] (a tie) the code aggregates
to "low" (pandas mode sorts tied bins in category order and takes the
smallest) while the claim's first-encountered tie-break demands "high". -/
theorem c4_counterexample :
    (analyze_user_row "alice" c4_df).engagement_level = "low" ∧
    (spec_mode_first_encountered
      ((user_posts "alice" c4_df).map (fun p => p.engagement_level))).label = "high" := by
  decide

/-- Helper: the aggregated bin has maximal frequency, and among the bins
of maximal frequency it is the smallest in the category order
low < medium < high. -/
theorem engagement_mode_spec (l : List Engagement) :
    (∀ b, l.count b ≤ l.count (engagement_mode l)) ∧
    (∀ b, l.count b = l.count (engagement_mode l) → (engagement_mode l).rank ≤ b.rank) := by
  unfold engagement_mode
  dsimp only
  split_ifs with h1 h2
  · refine ⟨fun b => ?_, fun b hb => ?_⟩
    · cases b <;> omega
    · cases b <;> simp only [Engagement.rank] <;> omega
  · rw [Decidable.not_and_iff_or_not] at h1
    refine ⟨fun b => ?_, fun b hb => ?_⟩
    · cases b <;> omega
    · cases b <;> simp only [Engagement.rank] <;> omega
  · rw [Decidable.not_and_iff_or_not] at h1
    refine ⟨fun b => ?_, fun b hb => ?_⟩
    · cases b <;> omega
    · cases b <;> simp only [Engagement.rank] <;> omega

/-- C4 amended: for every author with at least one post, the aggregated
engagement_level is (the label of) a most frequent engagement bin among
that author's posts, and when two or more bins are tied for most
frequent the tie is broken in favor of the smallest bin in the category
order low < medium < high (pandas mode ordering), not the bin first
encountered in post order. -/
theorem c4_amended (user : String) (df : List PostRow)
    (h : (user_posts user df).isEmpty = false) :
    (analyze_user_row user df).engagement_level =
      (engagement_mode ((user_posts user df).map (fun p => p.engagement_level))).label ∧
    (∀ b, ((user_posts user df).map (fun p => p.engagement_level)).count b ≤
      ((user_posts user df).map (fun p => p.engagement_level)).count
        (engagement_mode ((user_posts user df).map (fun p => p.engagement_level)))) ∧
    (∀ b, ((user_posts user df).map (fun p => p.engagement_level)).count b =
      ((user_posts user df).map (fun p => p.engagement_level)).count
        (engagement_mode ((user_posts user df).map (fun p => p.engagement_level))) →
      (engagement_mode ((user_posts user df).map (fun p => p.engagement_level))).rank ≤ b.rank) := by
  have hm := engagement_mode_spec ((user_posts user df).map (fun p => p.engagement_level))
  refine ⟨?_, hm.1, hm.2⟩
  simp [analyze_user_row, h]

/-- C4 witness: the amended statement evaluated for the concrete author
of `c4_df`. -/
theorem c4_witness :
    (user_posts "alice" c4_df).isEmpty = false ∧
    (analyze_user_row "alice" c4_df).engagement_level =
      (engagement_mode ((user_posts "alice" c4_df).map (fun p => p.engagement_level))).label :=
  ⟨by decide, (c4_amended "alice" c4_df (by decide)).1⟩

/-- One entry of the match list built by
`RedditDatingAnalysis.find_matches`. -/
structure MatchEntry where
  user : String
  score : ℚ
  profile : ProfileView
  deriving DecidableEq, Repr

/-- Embedding of `RedditDatingAnalysis.find_matches`: score every row of
the behaviour table, sort by score descending (Python `list.sort` with
`reverse=True`, a stable sort) and keep the first n_recommendations. -/
def find_matches (behavior_data : List (String × UserRow))
    (preferences : Preferences) (n_recommendations : ℕ) : List MatchEntry :=
  let scored := behavior_data.map (fun u =>
    ⟨u.1, calculate_match_score preferences u.2, get_user_profile u.1 behavior_data⟩)
  (scored.mergeSort (fun a b => decide (b.score ≤ a.score))).take n_recommendations

/-- Helper: every value the `try:` block of `calculate_match_score`
returns is already clamped into [0, 100] by `min(100, max(0, score))`. -/
theorem attempt_value_bounds (p : Preferences) (u : UserRow) (y : ℚ)
    (h : calculate_match_score_attempt p u = some y) : 0 ≤ y ∧ y ≤ 100 := by
  unfold calculate_match_score_attempt at h
  simp only [Option.bind_eq_bind, Option.pure_def] at h
  by_cases heq : u.engagement_level = p.engagement_level
  · rw [if_pos heq] at h
    simp only [Option.some_bind] at h
    rcases he : expected_frequency_lookup p.engagement_level with _ | v
    · rw [he] at h; simp at h
    · rw [he] at h
      simp only [Option.some_bind, Option.some.injEq] at h
      refine ⟨?_, ?_⟩
      · rw [← h]; exact le_min (by norm_num) (le_max_left _ _)
      · rw [← h]; exact min_le_left _ _
  · rw [if_neg heq] at h
    rcases ha : engagement_rank_lookup u.engagement_level with _ | a
    · rw [ha] at h; simp at h
    · rw [ha] at h
      simp only [Option.some_bind] at h
      rcases hb : engagement_rank_lookup p.engagement_level with _ | b
      · rw [hb] at h; simp at h
      · rw [hb] at h
        simp only [Option.some_bind] at h
        rcases he : expected_frequency_lookup p.engagement_level with _ | v
        · rw [he] at h; simp at h
        · rw [he] at h
          simp only [Option.some_bind, Option.some.injEq] at h
          refine ⟨?_, ?_⟩
          · rw [← h]; exact le_min (by norm_num) (le_max_left _ _)
          · rw [← h]; exact min_le_left _ _

/-- C9: for every profile row and preference value the match score lies
in [0, 100]; an exception inside the scoring block (a `none` attempt)
yields score 0 for that candidate only; and `find_matches` scores the
whole batch, returning one ranked entry per candidate up to the
requested count. -/
theorem c9_score_bounds_and_batch (preferences : Preferences) :
    (∀ user_data : UserRow,
      0 ≤ calculate_match_score preferences user_data ∧
      calculate_match_score preferences user_data ≤ 100) ∧
    (∀ user_data : UserRow,
      calculate_match_score_attempt preferences user_data = none →
      calculate_match_score preferences user_data = 0) ∧
    (∀ (behavior_data : List (String × UserRow)) (n : ℕ),
      (find_matches behavior_data preferences n).length =
        min n behavior_data.length) := by
  refine ⟨fun u => ?_, fun u h => ?_, fun bd n => ?_⟩
  · unfold calculate_match_score
    rcases h : calculate_match_score_attempt preferences u with _ | y
    · simp
    · simpa using attempt_value_bounds preferences u y h
  · unfold calculate_match_score
    rw [h]
    rfl
  · unfold find_matches
    rw [List.length_take, (List.mergeSort_perm _ _).length_eq, List.length_map]

/-- Profile row carrying an engagement label outside the scorer's dicts:
looking it up raises `KeyError` in the source, i.e. a `none` attempt. -/
def c9_bad_user : UserRow :=
  ⟨0, 0, 0, 0, "mystery", 0, 0⟩

/-- Preferences used by the C9 witness. -/
def c9_prefs : Preferences :=
  ⟨"neutral", 6, "medium"⟩

/-- C9 witness: the bounds, the exception-to-zero behaviour and the
batch length evaluated at a concrete malformed candidate. -/
theorem c9_witness :
    (0 ≤ calculate_match_score c9_prefs c9_bad_user ∧
      calculate_match_score c9_prefs c9_bad_user ≤ 100) ∧
    calculate_match_score c9_prefs c9_bad_user = 0 ∧
    (find_matches [("bob", c9_bad_user)] c9_prefs 5).length = min 5 1 := by
  have H := c9_score_bounds_and_batch c9_prefs
  exact ⟨H.1 c9_bad_user, H.2.1 c9_bad_user rfl, H.2.2 [("bob", c9_bad_user)] 5⟩

/-- Dot product of two feature vectors. -/
def dotProduct (u v : List ℚ) : ℚ :=
  (List.zipWith (fun a b => a * b) u v).sum

/-- Squared Euclidean norm of a feature vector. -/
def sqnorm (u : List ℚ) : ℚ :=
  dotProduct u u

/-- Exact order-encoding of the cosine distance
`1 - dot(u,v)/(norm(u)*norm(v))` computed by
`NearestNeighbors(metric='cosine')`. With n = dot(u,v) and
s = sqnorm(u)*sqnorm(v) the value is `-sign(n) * n^2 / s`, a strictly
increasing rational function of the (irrational) cosine distance, so
comparing keys compares distances exactly; `cosKey_le_iff_dist_le`
below proves the order isomorphism. -/
def cosKey (u v : List ℚ) : ℚ :=
  let n := dotProduct u v
  let s := sqnorm u * sqnorm v
  if 0 ≤ n then -(n^2 / s) else n^2 / s

/-- Neighbor ordering used by the fitted index: increasing distance,
ties broken by row index (the order numpy's argsort yields on the
distance row). -/
def distLex (a b : ℕ × ℚ) : Prop :=
  a.2 < b.2 ∨ (a.2 = b.2 ∧ a.1 ≤ b.1)

instance : DecidableRel distLex :=
  fun a b => inferInstanceAs (Decidable (a.2 < b.2 ∨ (a.2 = b.2 ∧ a.1 ≤ b.1)))

instance : IsTotal (ℕ × ℚ) distLex := by
  constructor
  intro a b
  rcases lt_trichotomy a.2 b.2 with h | h | h
  · exact Or.inl (Or.inl h)
  · rcases Nat.le_total a.1 b.1 with hn | hn
    · exact Or.inl (Or.inr ⟨h, hn⟩)
    · exact Or.inr (Or.inr ⟨h.symm, hn⟩)
  · exact Or.inr (Or.inl h)

instance : IsTrans (ℕ × ℚ) distLex := by
  constructor
  intro a b c hab hbc
  rcases hab with h1 | ⟨h1, h1n⟩ <;> rcases hbc with h2 | ⟨h2, h2n⟩
  · exact Or.inl (h1.trans h2)
  · exact Or.inl (h2 ▸ h1)
  · exact Or.inl (h1 ▸ h2)
  · exact Or.inr ⟨h1.trans h2, h1n.trans h2n⟩

/-- Embedding of `knn_model.kneighbors(user_features, k)` over the
fitted feature matrix X: every row is ranked by increasing cosine
distance to the query (ties by row index) and the first k (index,
distance-key) pairs are returned. -/
def kneighbors (X : List (List ℚ)) (q : List ℚ) (k : ℕ) : List (ℕ × ℚ) :=
  let entries := (List.range X.length).map (fun i => (i, cosKey q (X.getD i [])))
  (entries.insertionSort distLex).take k

/-- Embedding of `RecommendationSystem.get_recommendations`: query for
n_recommendations + 1 neighbors and drop the first entry of the result
(`indices[0][1:]`, `distances[0][1:]`). -/
def get_recommendations (X : List (List ℚ)) (user_features : List ℚ)
    (n_recommendations : ℕ) : List (ℕ × ℚ) :=
  (kneighbors X user_features (n_recommendations + 1)).drop 1

/-- Helper: every returned pair carries the cosine key of its own row
and a valid row index. -/
theorem get_recommendations_mem (X : List (List ℚ)) (q : List ℚ) (n : ℕ) :
    ∀ p ∈ get_recommendations X q n,
      p.2 = cosKey q (X.getD p.1 []) ∧ p.1 < X.length := by
  intro p hp
  have hp0 : p ∈ ((((List.range X.length).map
      (fun j => (j, cosKey q (X.getD j [])))).insertionSort distLex).take (n+1)).drop 1 := hp
  have hp1 : p ∈ ((List.range X.length).map
      (fun j => (j, cosKey q (X.getD j [])))).insertionSort distLex :=
    List.mem_of_mem_take (List.mem_of_mem_drop hp0)
  have hp2 : p ∈ (List.range X.length).map (fun j => (j, cosKey q (X.getD j []))) :=
    (List.perm_insertionSort distLex _).mem_iff.mp hp1
  rcases List.mem_map.mp hp2 with ⟨j, hjr, rfl⟩
  exact ⟨rfl, List.mem_range.mp hjr⟩

/-- Helper: the returned pairs are sorted by the neighbor order
(increasing distance key, ties by index). -/
theorem get_recommendations_sorted (X : List (List ℚ)) (q : List ℚ) (n : ℕ) :
    List.Sorted distLex (get_recommendations X q n) := by
  have hs := List.sorted_insertionSort distLex
    ((List.range X.length).map (fun j => (j, cosKey q (X.getD j []))))
  exact List.Pairwise.sublist
    ((List.drop_sublist _ _).trans (List.take_sublist _ _)) hs

/-- Helper: with at least n + 1 fitted rows the call returns exactly n
pairs (`kneighbors` is asked for n + 1 and the first is dropped). -/
theorem get_recommendations_length (X : List (List ℚ)) (q : List ℚ) (n : ℕ)
    (hn : n + 1 ≤ X.length) :
    (get_recommendations X q n).length = n := by
  unfold get_recommendations kneighbors
  rw [List.length_drop, List.length_take,
    (List.perm_insertionSort _ _).length_eq, List.length_map, List.length_range]
  omega

/-- Helper: when row i is strictly closer to the query than every other
row, it sorts first and is therefore dropped: no returned pair carries
index i. -/
theorem get_recommendations_excludes (X : List (List ℚ)) (q : List ℚ) (n i : ℕ)
    (hi : i < X.length)
    (hmin : ∀ j, j < X.length → j ≠ i →
      cosKey q (X.getD i []) < cosKey q (X.getD j [])) :
    ∀ p ∈ get_recommendations X q n, p.1 ≠ i := by
  have hperm : (((List.range X.length).map
      (fun j => (j, cosKey q (X.getD j [])))).insertionSort distLex).Perm
      ((List.range X.length).map (fun j => (j, cosKey q (X.getD j [])))) :=
    List.perm_insertionSort _ _
  have hsorted : List.Sorted distLex (((List.range X.length).map
      (fun j => (j, cosKey q (X.getD j [])))).insertionSort distLex) :=
    List.sorted_insertionSort _ _
  have hlenS : (((List.range X.length).map
      (fun j => (j, cosKey q (X.getD j [])))).insertionSort distLex).length
      = X.length := by
    rw [hperm.length_eq, List.length_map, List.length_range]
  cases hSc : ((List.range X.length).map
      (fun j => (j, cosKey q (X.getD j [])))).insertionSort distLex with
  | nil =>
    rw [hSc] at hlenS
    simp at hlenS
    omega
  | cons s0 tl =>
    rw [hSc] at hperm hsorted hlenS
    have hs0mem : s0 ∈ (List.range X.length).map
        (fun j => (j, cosKey q (X.getD j []))) :=
      hperm.mem_iff.mp (List.mem_cons_self s0 tl)
    obtain ⟨j, hjr, hjs⟩ := List.mem_map.mp hs0mem
    have hj : j < X.length := List.mem_range.mp hjr
    have hs0 : s0 = (i, cosKey q (X.getD i [])) := by
      by_cases hji : j = i
      · subst hji
        exact hjs.symm
      · exfalso
        have himem : (i, cosKey q (X.getD i [])) ∈ s0 :: tl :=
          hperm.mem_iff.mpr (List.mem_map.mpr ⟨i, List.mem_range.mpr hi, rfl⟩)
        have hlt := hmin j hj hji
        rcases List.mem_cons.mp himem with he | hitl
        · have : i = j := congrArg Prod.fst (he.trans hjs.symm)
          exact hji this.symm
        · have hrel : distLex s0 (i, cosKey q (X.getD i [])) :=
            (List.pairwise_cons.mp hsorted).1 _ hitl
          rw [← hjs] at hrel
          rcases hrel with h | ⟨h, _⟩
          · exact absurd hlt (not_lt.mpr (le_of_lt h))
          · exact absurd hlt (not_lt.mpr (le_of_eq
              (show cosKey q (X.getD j []) = cosKey q (X.getD i []) from h)))
    have hmapeq : ((List.range X.length).map
        (fun j => (j, cosKey q (X.getD j [])))).map Prod.fst = List.range X.length := by
      rw [List.map_map]
      simp [Function.comp_def]
    have hnodE : (((List.range X.length).map
        (fun j => (j, cosKey q (X.getD j [])))).map Prod.fst).Nodup := by
      rw [hmapeq]
      exact List.nodup_range _
    have hnody : ((s0 :: tl).map Prod.fst).Nodup :=
      ((hperm.map Prod.fst).nodup_iff).mpr hnodE
    intro p hp hp1
    have hptl : p ∈ tl := by
      have hp0 : p ∈ ((((List.range X.length).map
          (fun j => (j, cosKey q (X.getD j [])))).insertionSort distLex).take (n+1)).drop 1 := hp
      rw [hSc, List.take_succ_cons, List.drop_succ_cons, List.drop_zero] at hp0
      exact List.mem_of_mem_take hp0
    simp only [List.map_cons, List.nodup_cons] at hnody
    have hmem1 : p.1 ∈ tl.map Prod.fst := List.mem_map.mpr ⟨p, hptl, rfl⟩
    rw [hp1] at hmem1
    rw [hs0] at hnody
    exact hnody.1 hmem1

/-- Cosine distance `1 - dot(u,v)/(norm(u)*norm(v))` over the reals, the
quantity sklearn's cosine metric computes. -/
noncomputable def realCosDist (u v : List ℚ) : ℝ :=
  1 - (dotProduct u v : ℝ) / Real.sqrt ((sqnorm u : ℝ) * (sqnorm v : ℝ))

/-- Helper: the signed-square map x ↦ -sign(x)·x² reverses the order. -/
theorem signedSq_le_iff (x y : ℝ) :
    ((if 0 ≤ x then -(x^2) else x^2) ≤ (if 0 ≤ y then -(y^2) else y^2)) ↔ y ≤ x := by
  by_cases hx : 0 ≤ x <;> by_cases hy : 0 ≤ y
  · rw [if_pos hx, if_pos hy, neg_le_neg_iff]
    exact pow_le_pow_iff_left₀ hy hx two_ne_zero
  · rw [if_pos hx, if_neg hy]
    exact iff_of_true (le_trans (neg_nonpos.mpr (sq_nonneg x)) (sq_nonneg y))
      (le_trans (le_of_lt (not_le.mp hy)) hx)
  · rw [if_neg hx, if_pos hy]
    refine iff_of_false (fun hc => ?_) (not_le.mpr (lt_of_lt_of_le (not_le.mp hx) hy))
    nlinarith [sq_nonneg y, mul_pos (neg_pos.mpr (not_le.mp hx)) (neg_pos.mpr (not_le.mp hx))]
  · rw [if_neg hx, if_neg hy]
    constructor
    · intro h
      nlinarith [not_le.mp hx, not_le.mp hy]
    · intro h
      nlinarith [not_le.mp hx, not_le.mp hy]

/-- Helper: over the reals the rational key is the signed-square
encoding of the cosine similarity. -/
theorem cosKey_cast (q w : List ℚ) (hq : 0 < sqnorm q) (hw : 0 < sqnorm w) :
    ((cosKey q w : ℚ) : ℝ) =
      (if 0 ≤ (dotProduct q w : ℝ) / Real.sqrt ((sqnorm q : ℝ) * (sqnorm w : ℝ)) then
        -(((dotProduct q w : ℝ) / Real.sqrt ((sqnorm q : ℝ) * (sqnorm w : ℝ)))^2)
      else ((dotProduct q w : ℝ) / Real.sqrt ((sqnorm q : ℝ) * (sqnorm w : ℝ)))^2) := by
  have hs : (0:ℝ) < (sqnorm q : ℝ) * (sqnorm w : ℝ) := by
    have := mul_pos hq hw
    exact_mod_cast this
  have hsq : 0 < Real.sqrt ((sqnorm q : ℝ) * (sqnorm w : ℝ)) := Real.sqrt_pos.mpr hs
  have hsqr : (Real.sqrt ((sqnorm q : ℝ) * (sqnorm w : ℝ)))^2 =
      (sqnorm q : ℝ) * (sqnorm w : ℝ) := Real.sq_sqrt hs.le
  unfold cosKey
  dsimp only
  rcases le_or_lt 0 (dotProduct q w) with h | h
  · rw [if_pos h, if_pos (div_nonneg (by exact_mod_cast h) hsq.le)]
    rw [div_pow, hsqr]
    push_cast
    ring
  · rw [if_neg (not_le.mpr h), if_neg (not_le.mpr (div_neg_of_neg_of_pos (by exact_mod_cast h) hsq))]
    rw [div_pow, hsqr]
    push_cast
    ring

/-- Helper: comparing rational keys is comparing real cosine distances:
the key encoding is an order isomorphism on rows with nonzero norm. -/
theorem cosKey_le_iff_dist_le (q u v : List ℚ)
    (hq : 0 < sqnorm q) (hu : 0 < sqnorm u) (hv : 0 < sqnorm v) :
    (cosKey q u ≤ cosKey q v ↔ realCosDist q u ≤ realCosDist q v) := by
  have hcast : (cosKey q u ≤ cosKey q v) ↔
      ((cosKey q u : ℝ) ≤ (cosKey q v : ℝ)) := by
    exact_mod_cast Iff.rfl
  rw [hcast, cosKey_cast q u hq hu, cosKey_cast q v hq hv]
  unfold realCosDist
  rw [sub_le_sub_iff_left, signedSq_le_iff]

/-- Fitted feature matrix with a duplicated row: rows 0 and 1 are the
same vector. -/
def c7_X : List (List ℚ) :=
  [[1, 0], [1, 0], [0, 1]]

/-- Query vector equal to row 1 of `c7_X` (a member of the fitted set). -/
def c7_q : List ℚ :=
  [1, 0]

/-- C7 counterexample: querying with the vector of fitted record 1
returns indices [1, 2]: record 1 itself is among the neighbors, because
its duplicate at index 0 sorts first (distance 0, smaller index) and only
that first entry is dropped. -/
theorem c7_counterexample :
    c7_X.getD 1 [] = c7_q ∧
    (get_recommendations c7_X c7_q 2).map Prod.fst = [1, 2] := by
  refine ⟨rfl, ?_⟩
  norm_num [get_recommendations, kneighbors, cosKey, dotProduct, sqnorm, distLex,
    c7_X, c7_q, List.range_succ, List.insertionSort, List.orderedInsert, List.getD]

/-- C7 amended: a query for the vector of fitted record i never returns
record i provided i is the unique row at minimal cosine distance from
the query (in particular no other row duplicates it); and the returned
pairs are sorted by increasing real cosine distance. With a duplicated
row the source can return the query record itself (see the
counterexample). -/
theorem c7_amended (X : List (List ℚ)) (q : List ℚ) (n i : ℕ)
    (hi : i < X.length) (_hqrow : X.getD i [] = q)
    (hmin : ∀ j, j < X.length → j ≠ i →
      cosKey q (X.getD i []) < cosKey q (X.getD j []))
    (hqpos : 0 < sqnorm q) (hrows : ∀ v ∈ X, 0 < sqnorm v) :
    (∀ p ∈ get_recommendations X q n, p.1 ≠ i) ∧
    List.Pairwise (fun a b =>
      realCosDist q (X.getD a.1 []) ≤ realCosDist q (X.getD b.1 []))
      (get_recommendations X q n) := by
  refine ⟨get_recommendations_excludes X q n i hi hmin, ?_⟩
  have hmem := get_recommendations_mem X q n
  refine List.Pairwise.imp_of_mem ?_ (get_recommendations_sorted X q n)
  intro a b ha hb hrel
  obtain ⟨hka, hia⟩ := hmem a ha
  obtain ⟨hkb, hib⟩ := hmem b hb
  have hrowa : 0 < sqnorm (X.getD a.1 []) := by
    refine hrows _ ?_
    rw [List.getD_eq_getElem _ _ hia]
    exact List.getElem_mem _
  have hrowb : 0 < sqnorm (X.getD b.1 []) := by
    refine hrows _ ?_
    rw [List.getD_eq_getElem _ _ hib]
    exact List.getElem_mem _
  have hkey : cosKey q (X.getD a.1 []) ≤ cosKey q (X.getD b.1 []) := by
    rw [← hka, ← hkb]
    rcases hrel with h | ⟨h, _⟩
    · exact le_of_lt h
    · exact le_of_eq h
  exact (cosKey_le_iff_dist_le q _ _ hqpos hrowa hrowb).mp hkey

/-- Fitted matrix for the C7 witness: three pairwise non-colinear rows. -/
def c7w_X : List (List ℚ) :=
  [[1, 0], [0, 1], [3, 4]]

/-- C7 witness: the amended exclusion and sortedness evaluated at the
concrete query equal to row 0 of `c7w_X`, which is its own unique
nearest row. -/
theorem c7_witness :
    (∀ p ∈ get_recommendations c7w_X [1, 0] 1, p.1 ≠ 0) ∧
    List.Pairwise (fun a b =>
      realCosDist [1, 0] (c7w_X.getD a.1 []) ≤ realCosDist [1, 0] (c7w_X.getD b.1 []))
      (get_recommendations c7w_X [1, 0] 1) := by
  refine c7_amended c7w_X [1, 0] 1 0 (by norm_num [c7w_X]) rfl ?_ ?_ ?_
  · intro j hj hne
    norm_num [c7w_X] at hj
    interval_cases j
    · exact absurd rfl hne
    · norm_num [c7w_X, cosKey, dotProduct, sqnorm, List.getD]
    · norm_num [c7w_X, cosKey, dotProduct, sqnorm, List.getD]
  · norm_num [sqnorm, dotProduct]
  · intro v hv
    fin_cases hv <;> norm_num [sqnorm, dotProduct]

/-- C10: `get_recommendations` always drops the first returned neighbor:
for a query vector not present in the fitted matrix whose genuinely
nearest row is unique, that nearest row is never among the returned
pairs, and with at least n + 1 fitted rows exactly n pairs are
returned. -/
theorem c10_nearest_always_dropped (X : List (List ℚ)) (q : List ℚ) (n i : ℕ)
    (_hqnotmem : q ∉ X) (hi : i < X.length)
    (hmin : ∀ j, j < X.length → j ≠ i →
      cosKey q (X.getD i []) < cosKey q (X.getD j []))
    (hn : n + 1 ≤ X.length) :
    (get_recommendations X q n).length = n ∧
    (∀ p ∈ get_recommendations X q n, p.1 ≠ i) :=
  ⟨get_recommendations_length X q n hn,
   get_recommendations_excludes X q n i hi hmin⟩

/-- Fitted matrix for the C10 witness. -/
def c10_X : List (List ℚ) :=
  [[1, 0], [0, 1], [-1, 0]]

/-- C10 witness: the query [3, 4] is not a fitted row, its unique
nearest row is row 1, and the call returns exactly 1 pair excluding
row 1. -/
theorem c10_witness :
    (get_recommendations c10_X [3, 4] 1).length = 1 ∧
    (∀ p ∈ get_recommendations c10_X [3, 4] 1, p.1 ≠ 1) := by
  refine c10_nearest_always_dropped c10_X [3, 4] 1 1 ?_ (by norm_num [c10_X]) ?_
    (by norm_num [c10_X])
  · norm_num [c10_X]
  · intro j hj hne
    norm_num [c10_X] at hj
    interval_cases j
    · norm_num [c10_X, cosKey, dotProduct, sqnorm, List.getD]
    · exact absurd rfl hne
    · norm_num [c10_X, cosKey, dotProduct, sqnorm, List.getD]

/-- Linear-interpolation quantile at p = k/3 of an ascending-sorted
list, the quantile np.percentile computes for the bin edges of
`pd.qcut(x, 3)`: the position p*(n-1) splits as i + g with
i = ⌊k*(n-1)/3⌋ and fraction g, and the value is
vs[i] + g*(vs[i+1] - vs[i]); for p = k/3 the floor and fraction are
exactly k*(n-1)/3 (natural division) and ((k*(n-1)) mod 3)/3. -/
def quantileThird (vs : List ℚ) (k : ℕ) : ℚ :=
  let m := vs.length - 1
  let i := k * m / 3
  let g : ℚ := ((k * m) % 3 : ℕ) / 3
  let a := vs.getD i 0
  let b := vs.getD (i + 1) a
  a + g * (b - a)

/-- Embedding of
`pd.qcut(values, q=3, labels=['quick', 'moderate', 'slow'])`: compute
the four quantile edges of the sorted values; when two edges coincide
qcut raises ValueError (`none`); otherwise each value is assigned to the
right-closed bin it falls in (the lowest bin also holds the minimum). -/
def qcut3 (xs : List ℚ) : Option (List String) :=
  let vs := xs.insertionSort (· ≤ ·)
  let e0 := quantileThird vs 0
  let e1 := quantileThird vs 1
  let e2 := quantileThird vs 2
  let e3 := quantileThird vs 3
  if e0 < e1 ∧ e1 < e2 ∧ e2 < e3 then
    some (xs.map (fun v =>
      if v ≤ e1 then "quick" else if v ≤ e2 then "moderate" else "slow"))
  else none

/-- Embedding of `DataProcessor._extract_user_patterns` at the author
level: the input is one (author, aggregated avg_response_time) row per
author (the groupby mean, already filled). The default category is
'moderate'; with at least 3 authors the qcut labels replace it; a qcut
ValueError is caught by the `except` handler, which leaves every author
at 'moderate'. -/
def extract_user_patterns (authors : List (String × ℚ)) : List (String × String) :=
  if 3 ≤ authors.length then
    match qcut3 (authors.map (fun a => a.2)) with
    | some labels => (authors.map (fun a => a.1)).zip labels
    | none => authors.map (fun a => (a.1, "moderate"))
  else authors.map (fun a => (a.1, "moderate"))

/-- C6 counterexample: three distinct authors whose response times are
tied at the bottom. qcut's lowest edges coincide (min = 1 = 1/3-quantile),
the source raises ValueError and the handler labels every author
'moderate': the three buckets are (0, 3, 0), not a balanced tertile
split, and no author is 'quick'. -/
theorem c6_counterexample :
    3 ≤ ([("a", (1:ℚ)), ("b", 1), ("c", 2)] : List (String × ℚ)).length ∧
    extract_user_patterns [("a", 1), ("b", 1), ("c", 2)] =
      [("a", "moderate"), ("b", "moderate"), ("c", "moderate")] := by
  refine ⟨by norm_num, ?_⟩
  norm_num [extract_user_patterns, qcut3, quantileThird,
    List.insertionSort, List.orderedInsert, List.getD]

/-- Helper: sorting a duplicate-free list ascending yields a strictly
increasing list. -/
theorem insertionSort_sorted_strict (ts : List ℚ)
    (hd : ts.Pairwise (fun x y => x ≠ y)) :
    (ts.insertionSort (fun a b => a ≤ b)).Sorted (fun a b => a < b) := by
  have hs : (ts.insertionSort (fun a b => a ≤ b)).Sorted (fun a b => a ≤ b) :=
    List.sorted_insertionSort _ _
  have hd2 : (ts.insertionSort (fun a b => a ≤ b)).Pairwise (fun x y => x ≠ y) :=
    ((List.perm_insertionSort (fun a b => a ≤ b) ts).pairwise_iff
      (fun h => h.symm)).mpr hd
  exact (hs.and hd2).imp (fun h => lt_of_le_of_ne h.1 h.2)

/-- Helper: strict monotone access into a strictly sorted list. -/
theorem sorted_getD_lt (vs : List ℚ) (hs : vs.Sorted (fun a b => a < b))
    (i j : ℕ) (hij : i < j) (hj : j < vs.length) :
    vs.getD i 0 < vs.getD j 0 := by
  have hi : i < vs.length := lt_trans hij hj
  rw [List.getD_eq_getElem _ _ hi, List.getD_eq_getElem _ _ hj]
  exact List.pairwise_iff_get.mp hs ⟨i, hi⟩ ⟨j, hj⟩ hij

/-- Helper: monotone access into a strictly sorted list. -/
theorem sorted_getD_le (vs : List ℚ) (hs : vs.Sorted (fun a b => a < b))
    (i j : ℕ) (hij : i ≤ j) (hj : j < vs.length) :
    vs.getD i 0 ≤ vs.getD j 0 := by
  rcases lt_or_eq_of_le hij with h | h
  · exact le_of_lt (sorted_getD_lt vs hs i j h hj)
  · rw [h]

/-- Helper: the interpolated k/3 quantile lies in the right-open
interval between the two sorted values it interpolates. -/
theorem quantileThird_bounds (vs : List ℚ) (hs : vs.Sorted (fun a b => a < b))
    (k : ℕ) (hlt : k * (vs.length - 1) / 3 + 1 < vs.length) :
    vs.getD (k * (vs.length - 1) / 3) 0 ≤ quantileThird vs k ∧
    quantileThird vs k < vs.getD (k * (vs.length - 1) / 3 + 1) 0 := by
  have hab : vs.getD (k * (vs.length - 1) / 3) 0 <
      vs.getD (k * (vs.length - 1) / 3 + 1) 0 :=
    sorted_getD_lt vs hs _ _ (by omega) hlt
  have hg0 : (0:ℚ) ≤ ((k * (vs.length - 1)) % 3 : ℕ) / 3 := by positivity
  have hg1 : (((k * (vs.length - 1)) % 3 : ℕ) : ℚ) / 3 < 1 := by
    rw [div_lt_one (by norm_num)]
    have : (k * (vs.length - 1)) % 3 < 3 := Nat.mod_lt _ (by norm_num)
    exact_mod_cast this
  unfold quantileThird
  dsimp only
  have hbb : vs.getD (k * (vs.length - 1) / 3 + 1)
      (vs.getD (k * (vs.length - 1) / 3) 0) =
      vs.getD (k * (vs.length - 1) / 3 + 1) 0 := by
    rw [List.getD_eq_getElem _ _ hlt, List.getD_eq_getElem _ _ hlt]
  rw [hbb]
  have key : (0:ℚ) < (1 - ((k * (vs.length - 1)) % 3 : ℕ) / 3) *
      (vs.getD (k * (vs.length - 1) / 3 + 1) 0 -
        vs.getD (k * (vs.length - 1) / 3) 0) :=
    mul_pos (by linarith) (by linarith)
  have key2 : (0:ℚ) ≤ (((k * (vs.length - 1)) % 3 : ℕ) / 3 : ℚ) *
      (vs.getD (k * (vs.length - 1) / 3 + 1) 0 -
        vs.getD (k * (vs.length - 1) / 3) 0) :=
    mul_nonneg hg0 (by linarith)
  constructor
  · nlinarith [key2]
  · nlinarith [key]

/-- Helper: the 0/3 quantile is the first element of the sorted list. -/
theorem quantileThird_zero (vs : List ℚ) : quantileThird vs 0 = vs.getD 0 0 := by
  unfold quantileThird
  norm_num

/-- Helper: the 3/3 quantile is the last element of the sorted list. -/
theorem quantileThird_three (vs : List ℚ) :
    quantileThird vs 3 = vs.getD (vs.length - 1) 0 := by
  unfold quantileThird
  dsimp only
  have h1 : 3 * (vs.length - 1) / 3 = vs.length - 1 := by omega
  have h2 : (3 * (vs.length - 1)) % 3 = 0 := by omega
  rw [h1, h2]
  norm_num

/-- Helper: a nonzero interpolation fraction pushes the quantile
strictly above its lower interpolation point. -/
theorem quantileThird_lower_strict (vs : List ℚ)
    (hs : vs.Sorted (fun a b => a < b)) (k : ℕ)
    (hlt : k * (vs.length - 1) / 3 + 1 < vs.length)
    (hmod : (k * (vs.length - 1)) % 3 ≠ 0) :
    vs.getD (k * (vs.length - 1) / 3) 0 < quantileThird vs k := by
  have hab : vs.getD (k * (vs.length - 1) / 3) 0 <
      vs.getD (k * (vs.length - 1) / 3 + 1) 0 :=
    sorted_getD_lt vs hs _ _ (by omega) hlt
  have hg0 : (0:ℚ) < ((k * (vs.length - 1)) % 3 : ℕ) / 3 := by
    have h1 : 0 < (k * (vs.length - 1)) % 3 := Nat.pos_of_ne_zero hmod
    have h2 : (0:ℚ) < ((k * (vs.length - 1)) % 3 : ℕ) := by exact_mod_cast h1
    positivity
  unfold quantileThird
  dsimp only
  have hbb : vs.getD (k * (vs.length - 1) / 3 + 1)
      (vs.getD (k * (vs.length - 1) / 3) 0) =
      vs.getD (k * (vs.length - 1) / 3 + 1) 0 := by
    rw [List.getD_eq_getElem _ _ hlt, List.getD_eq_getElem _ _ hlt]
  rw [hbb]
  have key : (0:ℚ) < (((k * (vs.length - 1)) % 3 : ℕ) / 3 : ℚ) *
      (vs.getD (k * (vs.length - 1) / 3 + 1) 0 -
        vs.getD (k * (vs.length - 1) / 3) 0) :=
    mul_pos hg0 (by linarith)
  nlinarith [key]

/-- Helper: on at least 3 pairwise-distinct values the four qcut edges
are strictly increasing, so `pd.qcut` does not raise. -/
theorem qcut3_edges_strict (ts : List ℚ) (hd : ts.Pairwise (fun x y => x ≠ y))
    (hn : 3 ≤ ts.length) :
    quantileThird (ts.insertionSort (fun a b => a ≤ b)) 0 <
      quantileThird (ts.insertionSort (fun a b => a ≤ b)) 1 ∧
    quantileThird (ts.insertionSort (fun a b => a ≤ b)) 1 <
      quantileThird (ts.insertionSort (fun a b => a ≤ b)) 2 ∧
    quantileThird (ts.insertionSort (fun a b => a ≤ b)) 2 <
      quantileThird (ts.insertionSort (fun a b => a ≤ b)) 3 := by
  have hs := insertionSort_sorted_strict ts hd
  have hlen : (ts.insertionSort (fun a b => a ≤ b)).length = ts.length :=
    (List.perm_insertionSort _ _).length_eq
  have hb1 := quantileThird_bounds (ts.insertionSort (fun a b => a ≤ b)) hs 1
    (by rw [hlen]; omega)
  have hb2 := quantileThird_bounds (ts.insertionSort (fun a b => a ≤ b)) hs 2
    (by rw [hlen]; omega)
  refine ⟨?_, ?_, ?_⟩
  · rw [quantileThird_zero]
    by_cases h0 : 1 * ((ts.insertionSort (fun a b => a ≤ b)).length - 1) / 3 = 0
    · have hm2 : (ts.insertionSort (fun a b => a ≤ b)).length - 1 = 2 := by
        rw [hlen] at h0 ⊢
        omega
      have := quantileThird_lower_strict (ts.insertionSort (fun a b => a ≤ b)) hs 1
        (by rw [hlen]; omega) (by rw [hm2]; omega)
      rw [h0] at this
      exact this
    · calc (ts.insertionSort (fun a b => a ≤ b)).getD 0 0
          < (ts.insertionSort (fun a b => a ≤ b)).getD
            (1 * ((ts.insertionSort (fun a b => a ≤ b)).length - 1) / 3) 0 := by
            refine sorted_getD_lt _ hs _ _ (by omega) (by rw [hlen]; omega)
        _ ≤ quantileThird (ts.insertionSort (fun a b => a ≤ b)) 1 := hb1.1
  · calc quantileThird (ts.insertionSort (fun a b => a ≤ b)) 1
        < (ts.insertionSort (fun a b => a ≤ b)).getD
          (1 * ((ts.insertionSort (fun a b => a ≤ b)).length - 1) / 3 + 1) 0 := hb1.2
      _ ≤ (ts.insertionSort (fun a b => a ≤ b)).getD
          (2 * ((ts.insertionSort (fun a b => a ≤ b)).length - 1) / 3) 0 := by
          refine sorted_getD_le _ hs _ _ ?_ (by rw [hlen]; omega)
          rw [hlen]
          have h1 := Nat.div_add_mod (1 * (ts.length - 1)) 3
          have h2 := Nat.div_add_mod (2 * (ts.length - 1)) 3
          have h3 : (1 * (ts.length - 1)) % 3 < 3 := Nat.mod_lt _ (by norm_num)
          have h4 : (2 * (ts.length - 1)) % 3 < 3 := Nat.mod_lt _ (by norm_num)
          omega
      _ ≤ quantileThird (ts.insertionSort (fun a b => a ≤ b)) 2 := hb2.1
  · rw [quantileThird_three]
    calc quantileThird (ts.insertionSort (fun a b => a ≤ b)) 2
        < (ts.insertionSort (fun a b => a ≤ b)).getD
          (2 * ((ts.insertionSort (fun a b => a ≤ b)).length - 1) / 3 + 1) 0 := hb2.2
      _ ≤ (ts.insertionSort (fun a b => a ≤ b)).getD
          ((ts.insertionSort (fun a b => a ≤ b)).length - 1) 0 := by
          refine sorted_getD_le _ hs _ _ (by rw [hlen]; omega) (by rw [hlen]; omega)

/-- Helper: in a strictly sorted list, when position i carries a value
at most e and every later position exceeds e, exactly i + 1 values are
at most e. -/
theorem countP_le_of_sorted (vs : List ℚ) : vs.Sorted (fun a b => a < b) →
    ∀ (e : ℚ) (i : ℕ), i < vs.length → vs.getD i 0 ≤ e →
    (∀ j, j < vs.length → i < j → e < vs.getD j 0) →
    vs.countP (fun v => decide (v ≤ e)) = i + 1 := by
  induction vs with
  | nil =>
    intro _ e i hi
    simp at hi
  | cons v rest ih =>
    intro hs e i hi hle hgt
    rcases List.sorted_cons.mp hs with ⟨hv, hrest⟩
    cases i with
    | zero =>
      rw [List.countP_cons]
      have hvle : v ≤ e := by simpa using hle
      have hzero : rest.countP (fun v => decide (v ≤ e)) = 0 := by
        rw [List.countP_eq_zero]
        intro x hx
        obtain ⟨j, hj, rfl⟩ := List.mem_iff_getElem.mp hx
        have hgtj := hgt (j+1) (by simpa using Nat.succ_lt_succ hj) (Nat.succ_pos j)
        rw [List.getD_cons_succ, List.getD_eq_getElem _ _ hj] at hgtj
        simpa using not_le.mpr hgtj
      rw [hzero]
      simp [hvle]
    | succ i' =>
      rw [List.countP_cons]
      have hi' : i' < rest.length := by
        simpa using hi
      have hle' : rest.getD i' 0 ≤ e := by
        rwa [List.getD_cons_succ] at hle
      have hgt' : ∀ j, j < rest.length → i' < j → e < rest.getD j 0 := by
        intro j hj hij
        have := hgt (j+1) (by simpa using Nat.succ_lt_succ hj) (Nat.succ_lt_succ hij)
        rwa [List.getD_cons_succ] at this
      have hvle : v ≤ e := by
        have hmem : rest.getD i' 0 ∈ rest := by
          rw [List.getD_eq_getElem _ _ hi']
          exact List.getElem_mem _
        exact le_trans (le_of_lt (hv _ hmem)) hle'
      rw [ih hrest e i' hi' hle' hgt']
      simp [hvle]

/-- Helper: counting values at most e splits at a lower threshold d. -/
theorem countP_le_split (l : List ℚ) (d e : ℚ) (hde : d ≤ e) :
    l.countP (fun v => decide (v ≤ e)) =
      l.countP (fun v => decide (v ≤ d)) +
      l.countP (fun v => decide (d < v ∧ v ≤ e)) := by
  induction l with
  | nil => rfl
  | cons v rest ih =>
    rw [List.countP_cons, List.countP_cons, List.countP_cons, ih]
    by_cases h1 : v ≤ d
    · have h2 : v ≤ e := le_trans h1 hde
      simp [h1, h2, not_lt.mpr h1]
      omega
    · by_cases h2 : v ≤ e
      · simp [h1, h2, not_le.mp h1]
        omega
      · simp [h1, h2]

/-- Helper: values above a threshold are the complement of those at
most it. -/
theorem countP_gt_eq (l : List ℚ) (e : ℚ) :
    l.countP (fun v => decide (e < v)) =
      l.length - l.countP (fun v => decide (v ≤ e)) := by
  induction l with
  | nil => rfl
  | cons v rest ih =>
    rw [List.countP_cons, List.countP_cons, List.length_cons, ih]
    have hle : rest.countP (fun v => decide (v ≤ e)) ≤ rest.length :=
      List.countP_le_length _
    by_cases h : v ≤ e
    · simp [h, not_lt.mpr h]
    · simp [h, not_le.mp h]
      omega

/-- Helper: counting a label among the second components of a zip of
equal-length lists counts it in the second list. -/
theorem countP_zip_snd (xs : List String) (ys : List String)
    (h : xs.length = ys.length) (p : String → Bool) :
    (xs.zip ys).countP (fun e => p e.2) = ys.countP p := by
  induction xs generalizing ys with
  | nil =>
    cases ys with
    | nil => rfl
    | cons y ys => simp at h
  | cons x xs ih =>
    cases ys with
    | nil => simp at h
    | cons y ys =>
      rw [List.zip_cons_cons, List.countP_cons, List.countP_cons, ih ys (by simpa using h)]

/-- Helper: zipping the author names with labels computed from the
author times rebuilds the per-author map. -/
theorem zip_map_labels (authors : List (String × ℚ)) (f : ℚ → String) :
    (authors.map (fun a => a.1)).zip ((authors.map (fun a => a.2)).map f) =
      authors.map (fun a => (a.1, f a.2)) := by
  induction authors with
  | nil => rfl
  | cons a rest ih => simp only [List.map_cons, List.zip_cons_cons, ih]

/-- Helper: with at least 3 pairwise-distinct values qcut succeeds, the
labels are the right-closed threshold assignment at the 1/3 and 2/3
quantile edges, and the number of values at most the first (resp.
second) edge is ⌊(n-1)/3⌋ + 1 (resp. ⌊2(n-1)/3⌋ + 1). -/
theorem qcut3_characterization (ts : List ℚ)
    (hd : ts.Pairwise (fun x y => x ≠ y)) (hn : 3 ≤ ts.length) :
    qcut3 ts = some (ts.map (fun v =>
      if v ≤ quantileThird (ts.insertionSort (fun a b => a ≤ b)) 1 then "quick"
      else if v ≤ quantileThird (ts.insertionSort (fun a b => a ≤ b)) 2 then "moderate"
      else "slow")) ∧
    ts.countP (fun v =>
      decide (v ≤ quantileThird (ts.insertionSort (fun a b => a ≤ b)) 1)) =
      (ts.length - 1) / 3 + 1 ∧
    ts.countP (fun v =>
      decide (v ≤ quantileThird (ts.insertionSort (fun a b => a ≤ b)) 2)) =
      2 * (ts.length - 1) / 3 + 1 := by
  have hs := insertionSort_sorted_strict ts hd
  have hlen : (ts.insertionSort (fun a b => a ≤ b)).length = ts.length :=
    (List.perm_insertionSort _ _).length_eq
  have hedges := qcut3_edges_strict ts hd hn
  refine ⟨?_, ?_, ?_⟩
  · unfold qcut3
    dsimp only
    rw [if_pos hedges]
  · have hb1 := quantileThird_bounds (ts.insertionSort (fun a b => a ≤ b)) hs 1
      (by rw [hlen]; omega)
    have hgt : ∀ j, j < (ts.insertionSort (fun a b => a ≤ b)).length →
        1 * ((ts.insertionSort (fun a b => a ≤ b)).length - 1) / 3 < j →
        quantileThird (ts.insertionSort (fun a b => a ≤ b)) 1 <
          (ts.insertionSort (fun a b => a ≤ b)).getD j 0 := by
      intro j hj hij
      calc quantileThird (ts.insertionSort (fun a b => a ≤ b)) 1
          < (ts.insertionSort (fun a b => a ≤ b)).getD
            (1 * ((ts.insertionSort (fun a b => a ≤ b)).length - 1) / 3 + 1) 0 := hb1.2
        _ ≤ (ts.insertionSort (fun a b => a ≤ b)).getD j 0 :=
            sorted_getD_le _ hs _ _ (by omega) hj
    have hcv := countP_le_of_sorted (ts.insertionSort (fun a b => a ≤ b)) hs
      (quantileThird (ts.insertionSort (fun a b => a ≤ b)) 1)
      (1 * ((ts.insertionSort (fun a b => a ≤ b)).length - 1) / 3)
      (by rw [hlen]; omega) hb1.1 hgt
    rw [← (List.perm_insertionSort (fun a b => a ≤ b) ts).countP_eq, hcv, hlen]
    omega
  · have hb2 := quantileThird_bounds (ts.insertionSort (fun a b => a ≤ b)) hs 2
      (by rw [hlen]; omega)
    have hgt : ∀ j, j < (ts.insertionSort (fun a b => a ≤ b)).length →
        2 * ((ts.insertionSort (fun a b => a ≤ b)).length - 1) / 3 < j →
        quantileThird (ts.insertionSort (fun a b => a ≤ b)) 2 <
          (ts.insertionSort (fun a b => a ≤ b)).getD j 0 := by
      intro j hj hij
      calc quantileThird (ts.insertionSort (fun a b => a ≤ b)) 2
          < (ts.insertionSort (fun a b => a ≤ b)).getD
            (2 * ((ts.insertionSort (fun a b => a ≤ b)).length - 1) / 3 + 1) 0 := hb2.2
        _ ≤ (ts.insertionSort (fun a b => a ≤ b)).getD j 0 :=
            sorted_getD_le _ hs _ _ (by omega) hj
    have hcv := countP_le_of_sorted (ts.insertionSort (fun a b => a ≤ b)) hs
      (quantileThird (ts.insertionSort (fun a b => a ≤ b)) 2)
      (2 * ((ts.insertionSort (fun a b => a ≤ b)).length - 1) / 3)
      (by rw [hlen]; omega) hb2.1 hgt
    rw [← (List.perm_insertionSort (fun a b => a ≤ b) ts).countP_eq, hcv, hlen]

/-- Helper: the quick label picks exactly the values at most the first
edge. -/
theorem assign_quick_eq (e1 e2 : ℚ) :
    (fun v => (if v ≤ e1 then "quick" else if v ≤ e2 then "moderate" else "slow") == "quick")
      = fun v : ℚ => decide (v ≤ e1) := by
  funext v
  by_cases h1 : v ≤ e1
  · simp [h1]
  · by_cases h2 : v ≤ e2 <;>
      simp [h1, h2, (by decide : (("moderate":String) == "quick") = false),
        (by decide : (("slow":String) == "quick") = false)]

/-- Helper: the moderate label picks exactly the values in the
half-open middle bin. -/
theorem assign_moderate_eq (e1 e2 : ℚ) :
    (fun v => (if v ≤ e1 then "quick" else if v ≤ e2 then "moderate" else "slow") == "moderate")
      = fun v : ℚ => decide (e1 < v ∧ v ≤ e2) := by
  funext v
  by_cases h1 : v ≤ e1
  · simp [h1, not_lt.mpr h1, (by decide : (("quick":String) == "moderate") = false)]
  · by_cases h2 : v ≤ e2
    · simp [h1, h2, not_le.mp h1]
    · simp [h1, h2, (by decide : (("slow":String) == "moderate") = false)]

/-- Helper: the slow label picks exactly the values above the second
edge. -/
theorem assign_slow_eq (e1 e2 : ℚ) (hde : e1 ≤ e2) :
    (fun v => (if v ≤ e1 then "quick" else if v ≤ e2 then "moderate" else "slow") == "slow")
      = fun v : ℚ => decide (e2 < v) := by
  funext v
  by_cases h1 : v ≤ e1
  · simp [h1, not_lt.mpr (le_trans h1 hde),
      (by decide : (("quick":String) == "slow") = false)]
  · by_cases h2 : v ≤ e2
    · simp [h1, h2, not_lt.mpr h2, (by decide : (("moderate":String) == "slow") = false)]
    · simp [h1, h2, not_le.mp h2]

/-- Helper: a predicate counted over the author times equals the
corresponding predicate counted over the author rows. -/
theorem countP_map_snd (authors : List (String × ℚ)) (p : ℚ → Bool) :
    (authors.map (fun a => a.2)).countP p = authors.countP (fun a => p a.2) := by
  rw [List.countP_map]
  rfl

set_option maxHeartbeats 2000000 in
/-- C6 amended: with fewer than 3 authors every author is 'moderate';
every author always receives one of the three labels; when pd.qcut
raises (coinciding quantile edges, e.g. tied response times) the except
handler labels every author 'moderate'; and when the per-author
avg_response_time values are pairwise distinct (which makes the four
quantile edges strictly increasing), authors are split by the ascending
right-closed quantile thresholds (quick = fastest third) into buckets of
sizes ⌊(n-1)/3⌋+1, ⌊2(n-1)/3⌋-⌊(n-1)/3⌋ and (n-1)-⌊2(n-1)/3⌋, any two
of which differ by at most 1. -/
theorem c6_amended :
    (∀ authors : List (String × ℚ), authors.length < 3 →
      extract_user_patterns authors = authors.map (fun a => (a.1, "moderate"))) ∧
    (∀ authors : List (String × ℚ), ∀ e ∈ extract_user_patterns authors,
      e.2 = "quick" ∨ e.2 = "moderate" ∨ e.2 = "slow") ∧
    (∀ authors : List (String × ℚ), 3 ≤ authors.length →
      qcut3 (authors.map (fun a => a.2)) = none →
      extract_user_patterns authors = authors.map (fun a => (a.1, "moderate"))) ∧
    (∀ authors : List (String × ℚ), 3 ≤ authors.length →
      (authors.map (fun a => a.2)).Pairwise (fun x y => x ≠ y) →
      extract_user_patterns authors = authors.map (fun a => (a.1,
        if a.2 ≤ quantileThird
            ((authors.map (fun a => a.2)).insertionSort (fun x y => x ≤ y)) 1
        then "quick"
        else if a.2 ≤ quantileThird
            ((authors.map (fun a => a.2)).insertionSort (fun x y => x ≤ y)) 2
        then "moderate"
        else "slow")) ∧
      (extract_user_patterns authors).countP (fun e => e.2 == "quick") =
        (authors.length - 1) / 3 + 1 ∧
      (extract_user_patterns authors).countP (fun e => e.2 == "moderate") =
        2 * (authors.length - 1) / 3 - (authors.length - 1) / 3 ∧
      (extract_user_patterns authors).countP (fun e => e.2 == "slow") =
        (authors.length - 1) - 2 * (authors.length - 1) / 3 ∧
      (∀ s ∈ ["quick", "moderate", "slow"], ∀ t ∈ ["quick", "moderate", "slow"],
        (extract_user_patterns authors).countP (fun e => e.2 == s) ≤
          (extract_user_patterns authors).countP (fun e => e.2 == t) + 1)) := by
  refine ⟨?_, ?_, ?_, ?_⟩
  · intro authors h
    unfold extract_user_patterns
    rw [if_neg (by omega)]
  · intro authors e he
    unfold extract_user_patterns at he
    by_cases h3 : 3 ≤ authors.length
    · rw [if_pos h3] at he
      rcases hq : qcut3 (authors.map (fun a => a.2)) with _ | labels
      · rw [hq] at he
        rcases List.mem_map.mp he with ⟨a, ha, rfl⟩
        right; left; rfl
      · rw [hq] at he
        have h2 := (List.of_mem_zip he).2
        unfold qcut3 at hq
        dsimp only at hq
        split_ifs at hq with hcond
        · injection hq with hq
          rw [← hq] at h2
          rcases List.mem_map.mp h2 with ⟨v, hv, hfv⟩
          rw [← hfv]
          split_ifs
          · left; rfl
          · right; left; rfl
          · right; right; rfl
    · rw [if_neg h3] at he
      rcases List.mem_map.mp he with ⟨a, ha, rfl⟩
      right; left; rfl
  · intro authors h3 hq
    unfold extract_user_patterns
    rw [if_pos h3, hq]
  · intro authors h3 hd
    have hlenm : (authors.map (fun a => a.2)).length = authors.length :=
      List.length_map _ _
    have hchar := qcut3_characterization (authors.map (fun a => a.2)) hd
      (by rw [hlenm]; exact h3)
    have hedges := qcut3_edges_strict (authors.map (fun a => a.2)) hd
      (by rw [hlenm]; exact h3)
    have hout : extract_user_patterns authors = authors.map (fun a => (a.1,
        if a.2 ≤ quantileThird
            ((authors.map (fun a => a.2)).insertionSort (fun x y => x ≤ y)) 1
        then "quick"
        else if a.2 ≤ quantileThird
            ((authors.map (fun a => a.2)).insertionSort (fun x y => x ≤ y)) 2
        then "moderate"
        else "slow")) := by
      unfold extract_user_patterns
      rw [if_pos h3, hchar.1]
      exact zip_map_labels authors _
    have hq1 : authors.countP (fun a => decide (a.2 ≤ quantileThird
        ((authors.map (fun a => a.2)).insertionSort (fun x y => x ≤ y)) 1)) =
        (authors.length - 1) / 3 + 1 := by
      have h := hchar.2.1
      rw [countP_map_snd, hlenm] at h
      exact h
    have hq2 : authors.countP (fun a => decide (a.2 ≤ quantileThird
        ((authors.map (fun a => a.2)).insertionSort (fun x y => x ≤ y)) 2)) =
        2 * (authors.length - 1) / 3 + 1 := by
      have h := hchar.2.2
      rw [countP_map_snd, hlenm] at h
      exact h
    have hsplit : authors.countP (fun a => decide (a.2 ≤ quantileThird
        ((authors.map (fun a => a.2)).insertionSort (fun x y => x ≤ y)) 2)) =
        authors.countP (fun a => decide (a.2 ≤ quantileThird
          ((authors.map (fun a => a.2)).insertionSort (fun x y => x ≤ y)) 1)) +
        authors.countP (fun a => decide (quantileThird
            ((authors.map (fun a => a.2)).insertionSort (fun x y => x ≤ y)) 1 < a.2 ∧
          a.2 ≤ quantileThird
            ((authors.map (fun a => a.2)).insertionSort (fun x y => x ≤ y)) 2)) := by
      have h := countP_le_split (authors.map (fun a => a.2))
        (quantileThird ((authors.map (fun a => a.2)).insertionSort (fun x y => x ≤ y)) 1)
        (quantileThird ((authors.map (fun a => a.2)).insertionSort (fun x y => x ≤ y)) 2)
        (le_of_lt hedges.2.1)
      rw [countP_map_snd, countP_map_snd, countP_map_snd] at h
      exact h
    have hgt : authors.countP (fun a => decide (quantileThird
        ((authors.map (fun a => a.2)).insertionSort (fun x y => x ≤ y)) 2 < a.2)) =
        authors.length - authors.countP (fun a => decide (a.2 ≤ quantileThird
          ((authors.map (fun a => a.2)).insertionSort (fun x y => x ≤ y)) 2)) := by
      have h := countP_gt_eq (authors.map (fun a => a.2))
        (quantileThird ((authors.map (fun a => a.2)).insertionSort (fun x y => x ≤ y)) 2)
      rw [countP_map_snd, countP_map_snd, hlenm] at h
      exact h
    have hcq : (extract_user_patterns authors).countP (fun e => e.2 == "quick") =
        (authors.length - 1) / 3 + 1 := by
      rw [hout, List.countP_map]
      have hfun : ((fun (e : String × String) => e.2 == "quick") ∘ (fun a : String × ℚ =>
          (a.1,
            if a.2 ≤ quantileThird
                ((authors.map (fun a => a.2)).insertionSort (fun x y => x ≤ y)) 1
            then "quick"
            else if a.2 ≤ quantileThird
                ((authors.map (fun a => a.2)).insertionSort (fun x y => x ≤ y)) 2
            then "moderate"
            else "slow"))) = fun a : String × ℚ => decide (a.2 ≤ quantileThird
              ((authors.map (fun a => a.2)).insertionSort (fun x y => x ≤ y)) 1) := by
        funext a
        exact congrFun (assign_quick_eq _ _) a.2
      rw [hfun]
      exact hq1
    have hcm : (extract_user_patterns authors).countP (fun e => e.2 == "moderate") =
        2 * (authors.length - 1) / 3 - (authors.length - 1) / 3 := by
      rw [hout, List.countP_map]
      have hfun : ((fun (e : String × String) => e.2 == "moderate") ∘ (fun a : String × ℚ =>
          (a.1,
            if a.2 ≤ quantileThird
                ((authors.map (fun a => a.2)).insertionSort (fun x y => x ≤ y)) 1
            then "quick"
            else if a.2 ≤ quantileThird
                ((authors.map (fun a => a.2)).insertionSort (fun x y => x ≤ y)) 2
            then "moderate"
            else "slow"))) = fun a : String × ℚ =>
          decide (quantileThird
              ((authors.map (fun a => a.2)).insertionSort (fun x y => x ≤ y)) 1 < a.2 ∧
            a.2 ≤ quantileThird
              ((authors.map (fun a => a.2)).insertionSort (fun x y => x ≤ y)) 2) := by
        funext a
        exact congrFun (assign_moderate_eq _ _) a.2
      rw [hfun]
      omega
    have hcs : (extract_user_patterns authors).countP (fun e => e.2 == "slow") =
        (authors.length - 1) - 2 * (authors.length - 1) / 3 := by
      rw [hout, List.countP_map]
      have hfun : ((fun (e : String × String) => e.2 == "slow") ∘ (fun a : String × ℚ =>
          (a.1,
            if a.2 ≤ quantileThird
                ((authors.map (fun a => a.2)).insertionSort (fun x y => x ≤ y)) 1
            then "quick"
            else if a.2 ≤ quantileThird
                ((authors.map (fun a => a.2)).insertionSort (fun x y => x ≤ y)) 2
            then "moderate"
            else "slow"))) = fun a : String × ℚ => decide (quantileThird
              ((authors.map (fun a => a.2)).insertionSort (fun x y => x ≤ y)) 2 < a.2) := by
        funext a
        exact congrFun (assign_slow_eq _ _ (le_of_lt hedges.2.1)) a.2
      rw [hfun]
      omega
    refine ⟨hout, hcq, hcm, hcs, ?_⟩
    intro s hs t ht
    have hdm1 := Nat.div_add_mod (authors.length - 1) 3
    have hdm2 := Nat.div_add_mod (2 * (authors.length - 1)) 3
    have hdm3 : (authors.length - 1) % 3 < 3 := Nat.mod_lt _ (by norm_num)
    have hdm4 : (2 * (authors.length - 1)) % 3 < 3 := Nat.mod_lt _ (by norm_num)
    fin_cases hs <;> fin_cases ht <;> simp only [hcq, hcm, hcs] <;> omega

/-- C6 witness: three authors with distinct response times 1 < 2 < 3
get the balanced tertile bucket sizes 1, 1, 1. -/
theorem c6_witness :
    (extract_user_patterns [("a", (1:ℚ)), ("b", 2), ("c", 3)]).countP
        (fun e => e.2 == "quick") = 1 ∧
    (extract_user_patterns [("a", (1:ℚ)), ("b", 2), ("c", 3)]).countP
        (fun e => e.2 == "moderate") = 1 ∧
    (extract_user_patterns [("a", (1:ℚ)), ("b", 2), ("c", 3)]).countP
        (fun e => e.2 == "slow") = 1 := by
  have H := c6_amended.2.2.2 [("a", (1:ℚ)), ("b", 2), ("c", 3)] (by norm_num)
    (by norm_num [List.pairwise_cons])
  exact ⟨H.2.1, H.2.2.1, H.2.2.2.1⟩

end DatingAnalysis
